import Mathlib

/-!
Verification development for the nextjs-pageprops-extractor repository.

The repository extracts the embedded JSON payload of a server-rendered
Next.js page with a Selenium-driven browser and persists the nested
props.pageProps value to a JSON file.  This file gives a shallow
embedding of the repository's three source files:

  - src/utils/generic.py          (read_saved_data, save_data_to_json)
  - src/utils/next_data_extractor.py
        (NextDataExtractor: _configure_chrome_options, _initialize_driver,
         _close_driver, extract_page_props, extract_and_save;
         free function extract_next_data)
  - src/main.py                   (illustrative entry script, not modelled)

Python values handled by the json module are modelled by a mutual
inductive Json type (numbers restricted to integers; Python floats are
out of scope of the model).  Selenium and the host platform are modelled
by a Backend record of oracle answers: one answer per external call the
code makes, each either a normal result or a raised exception.  The file
system is a list of (path, contents) pairs; json.dump / json.load are
modelled by an executable serializer and parser proved to round-trip.
-/

namespace NextData

/- JSON values (Python objects the json module handles).  Numbers are
modelled as integers; object members keep their textual order. -/
mutual
inductive Json where
  | null : Json
  | bool (b : Bool) : Json
  | num (n : Int) : Json
  | str (s : String) : Json
  | arr (xs : JsonList) : Json
  | obj (m : JsonObj) : Json
deriving DecidableEq

inductive JsonList where
  | nil : JsonList
  | cons (hd : Json) (tl : JsonList) : JsonList
deriving DecidableEq

inductive JsonObj where
  | nil : JsonObj
  | cons (k : String) (v : Json) (tl : JsonObj) : JsonObj
deriving DecidableEq
end

/-- Python truthiness of a JSON value: None, False, 0, "", [] and \x7b\x7d
are falsy, everything else truthy (used by the `if page_props:` test in
extract_and_save). -/
def Json.truthy : Json → Bool
  | .null => false
  | .bool b => b
  | .num n => n != 0
  | .str s => s != ""
  | .arr .nil => false
  | .arr (.cons _ _) => true
  | .obj .nil => false
  | .obj (.cons _ _ _) => true

/-- Keys of a JSON object, in order. -/
def JsonObj.keys : JsonObj → List String
  | .nil => []
  | .cons k _ tl => k :: tl.keys

/-- Membership test of a key in a JSON object (Python: k in d). -/
def JsonObj.hasKey (m : JsonObj) (k : String) : Bool :=
  match m with
  | .nil => false
  | .cons k' _ tl => k' == k || tl.hasKey k

/-- Lookup of a key in a JSON object.  Python dicts cannot hold a key
twice; on the duplicate-free objects the model cares about any match is
the unique one (we take the first). -/
def JsonObj.lookup (m : JsonObj) (k : String) : Option Json :=
  match m with
  | .nil => none
  | .cons k' v tl => if k' == k then some v else tl.lookup k

mutual
/-- Well-formedness: every object in the tree has duplicate-free keys,
as a Python dict does. -/
def Json.WF : Json → Prop
  | .null => True
  | .bool _ => True
  | .num _ => True
  | .str _ => True
  | .arr xs => xs.WF
  | .obj m => m.keys.Nodup ∧ m.WF

def JsonList.WF : JsonList → Prop
  | .nil => True
  | .cons hd tl => hd.WF ∧ tl.WF

def JsonObj.WF : JsonObj → Prop
  | .nil => True
  | .cons _ v tl => v.WF ∧ tl.WF
end

/-! ### json.dump: serialization with indent=2, ensure_ascii=False -/

/-- A run of n space characters. -/
def spaces (n : Nat) : List Char := List.replicate n ' '

/-- Newline followed by n spaces: the separator json.dump emits between
items when an indent is given. -/
def nlIndent (n : Nat) : List Char := '\n' :: spaces n

/-- Decimal digits of a natural number, most significant first, with
explicit fuel (any fuel above the value suffices). -/
def natToCharsF : Nat → Nat → List Char
  | 0, _ => []
  | fuel + 1, n =>
    if n < 10 then [Nat.digitChar n]
    else natToCharsF fuel (n / 10) ++ [Nat.digitChar (n % 10)]

/-- Decimal digits of a natural number, most significant first
(the repr Python's json emits for a non-negative int). -/
def natToChars (n : Nat) : List Char := natToCharsF (n + 1) n

/-- Decimal repr of an integer. -/
def intToChars (n : Int) : List Char :=
  if n < 0 then '-' :: natToChars n.natAbs else natToChars n.toNat

/-- How json.dump with ensure_ascii=False escapes one character of a
string: backslash, double quote and control characters are escaped,
everything else is emitted literally. -/
def escapeChar (c : Char) : List Char :=
  if c = '"' then ['\\', '"']
  else if c = '\\' then ['\\', '\\']
  else if c = '\n' then ['\\', 'n']
  else if c = '\t' then ['\\', 't']
  else if c = '\r' then ['\\', 'r']
  else if c = '\x08' then ['\\', 'b']
  else if c = '\x0c' then ['\\', 'f']
  else if c.toNat < 32 then
    ['\\', 'u', '0', '0', Nat.digitChar (c.toNat / 16), Nat.digitChar (c.toNat % 16)]
  else [c]

/-- Escape every character of a string body. -/
def escapeChars : List Char → List Char
  | [] => []
  | c :: rest => escapeChar c ++ escapeChars rest

/-- A JSON string literal: quote, escaped body, quote. -/
def quoteChars (s : List Char) : List Char :=
  '"' :: escapeChars s ++ ['"']

mutual
/-- json.dump of a value at indentation level ind, with indent=2:
scalars are atomic; non-empty containers put every item on its own
line indented two further spaces; empty containers stay on one line. -/
def Json.dump : Nat → Json → List Char
  | _, .null => ['n', 'u', 'l', 'l']
  | _, .bool true => ['t', 'r', 'u', 'e']
  | _, .bool false => ['f', 'a', 'l', 's', 'e']
  | _, .num n => intToChars n
  | _, .str s => quoteChars s.data
  | _, .arr .nil => ['[', ']']
  | ind, .arr (.cons hd tl) =>
    '[' :: (nlIndent (ind + 2) ++ Json.dump (ind + 2) hd ++
      JsonList.dumpTail (ind + 2) tl ++ nlIndent ind ++ [']'])
  | _, .obj .nil => ['\x7b', '\x7d']
  | ind, .obj (.cons k v tl) =>
    '\x7b' :: (nlIndent (ind + 2) ++ quoteChars k.data ++ [':', ' '] ++
      Json.dump (ind + 2) v ++ JsonObj.dumpTail (ind + 2) tl ++
      nlIndent ind ++ ['\x7d'])

/-- The remaining elements of a non-empty array: each preceded by a
comma and a fresh indented line. -/
def JsonList.dumpTail : Nat → JsonList → List Char
  | _, .nil => []
  | ind, .cons hd tl =>
    ',' :: (nlIndent ind ++ Json.dump ind hd ++ JsonList.dumpTail ind tl)

/-- The remaining members of a non-empty object. -/
def JsonObj.dumpTail : Nat → JsonObj → List Char
  | _, .nil => []
  | ind, .cons k v tl =>
    ',' :: (nlIndent ind ++ quoteChars k.data ++ [':', ' '] ++
      Json.dump ind v ++ JsonObj.dumpTail ind tl)
end

/-- The exact file contents json.dump(data, f, indent=2,
ensure_ascii=False) writes. -/
def Json.dumps (j : Json) : String := String.mk (Json.dump 0 j)

/-! ### json.loads: a recursive-descent JSON parser -/

/-- JSON whitespace. -/
def isJsonWs (c : Char) : Bool :=
  c = ' ' || c = '\t' || c = '\n' || c = '\r'

/-- Drop leading JSON whitespace. -/
def skipWs : List Char → List Char
  | [] => []
  | c :: rest => if isJsonWs c then skipWs rest else c :: rest

/-- Value of one hex digit, as json accepts in a \u escape. -/
def hexVal (c : Char) : Option Nat :=
  if '0' ≤ c ∧ c ≤ '9' then some (c.toNat - 48)
  else if 'a' ≤ c ∧ c ≤ 'f' then some (c.toNat - 87)
  else if 'A' ≤ c ∧ c ≤ 'F' then some (c.toNat - 55)
  else none

/-- Value of one decimal digit character. -/
def digitVal (c : Char) : Nat := c.toNat - 48

mutual
/-- Body of a JSON string after the opening quote: returns the decoded
characters and the input remaining after the closing quote. -/
def parseStrBody : List Char → Option (List Char × List Char)
  | [] => none
  | c :: rest =>
    if c = '"' then some ([], rest)
    else if c = '\\' then parseEsc rest
    else (parseStrBody rest).map (fun p => (c :: p.1, p.2))

/-- Decode what follows a backslash. -/
def parseEsc : List Char → Option (List Char × List Char)
  | [] => none
  | e :: r2 =>
    if e = '"' then (parseStrBody r2).map (fun p => ('"' :: p.1, p.2))
    else if e = '\\' then (parseStrBody r2).map (fun p => ('\\' :: p.1, p.2))
    else if e = '/' then (parseStrBody r2).map (fun p => ('/' :: p.1, p.2))
    else if e = 'n' then (parseStrBody r2).map (fun p => ('\n' :: p.1, p.2))
    else if e = 't' then (parseStrBody r2).map (fun p => ('\t' :: p.1, p.2))
    else if e = 'r' then (parseStrBody r2).map (fun p => ('\r' :: p.1, p.2))
    else if e = 'b' then (parseStrBody r2).map (fun p => ('\x08' :: p.1, p.2))
    else if e = 'f' then (parseStrBody r2).map (fun p => ('\x0c' :: p.1, p.2))
    else if e = 'u' then parseHexEsc 4 0 r2
    else none

/-- Decode the k remaining hex digits of a \u escape, then continue
with the string body. -/
def parseHexEsc : Nat → Nat → List Char → Option (List Char × List Char)
  | _, _, [] => none
  | k, acc, h :: r =>
    match hexVal h with
    | none => none
    | some v =>
      if k ≤ 1 then
        (parseStrBody r).map (fun p => (Char.ofNat (acc * 16 + v) :: p.1, p.2))
      else parseHexEsc (k - 1) (acc * 16 + v) r
end

/-- Consume a run of decimal digits, accumulating their value. -/
def parseNatLoop (acc : Nat) : List Char → Nat × List Char
  | [] => (acc, [])
  | c :: rest =>
    if c.isDigit then parseNatLoop (acc * 10 + digitVal c) rest
    else (acc, c :: rest)

/-- A non-negative integer literal: at least one digit. -/
def parseNum : List Char → Option (Nat × List Char)
  | [] => none
  | c :: rest =>
    if c.isDigit then some (parseNatLoop (digitVal c) rest) else none

mutual
/-- Fuel-indexed JSON value parser (the model of json.loads).  The
model restricts numeric literals to integers, which is all the
serializer side of the model produces. -/
def parseVal : Nat → List Char → Option (Json × List Char)
  | 0, _ => none
  | fuel + 1, s =>
    match skipWs s with
    | [] => none
    | c :: r =>
      if c = 'n' then
        match r with
        | 'u' :: 'l' :: 'l' :: r2 => some (.null, r2)
        | _ => none
      else if c = 't' then
        match r with
        | 'r' :: 'u' :: 'e' :: r2 => some (.bool true, r2)
        | _ => none
      else if c = 'f' then
        match r with
        | 'a' :: 'l' :: 's' :: 'e' :: r2 => some (.bool false, r2)
        | _ => none
      else if c = '"' then
        (parseStrBody r).map (fun p => (.str (String.mk p.1), p.2))
      else if c = '[' then
        if (skipWs r).head? = some ']' then some (.arr .nil, (skipWs r).tail)
        else (parseElems fuel (skipWs r)).map (fun p => (.arr p.1, p.2))
      else if c = '\x7b' then
        if (skipWs r).head? = some '\x7d' then some (.obj .nil, (skipWs r).tail)
        else (parseMembers fuel (skipWs r)).map (fun p => (.obj p.1, p.2))
      else if c = '-' then
        (parseNum r).map (fun p => (.num (-(p.1 : Int)), p.2))
      else if c.isDigit then
        (parseNum (c :: r)).map (fun p => (.num (p.1 : Int), p.2))
      else none

/-- One or more comma-separated array elements followed by the closing
bracket. -/
def parseElems : Nat → List Char → Option (JsonList × List Char)
  | 0, _ => none
  | fuel + 1, s =>
    match parseVal fuel s with
    | none => none
    | some (v, r) =>
      if (skipWs r).head? = some ',' then
        (parseElems fuel (skipWs r).tail).map (fun p => (.cons v p.1, p.2))
      else if (skipWs r).head? = some ']' then
        some (.cons v .nil, (skipWs r).tail)
      else none

/-- One or more comma-separated object members followed by the closing
brace. -/
def parseMembers : Nat → List Char → Option (JsonObj × List Char)
  | 0, _ => none
  | fuel + 1, s =>
    match skipWs s with
    | '"' :: r =>
      match parseStrBody r with
      | none => none
      | some (k, r2) =>
        if (skipWs r2).head? = some ':' then
          match parseVal fuel (skipWs r2).tail with
          | none => none
          | some (v, r4) =>
            if (skipWs r4).head? = some ',' then
              (parseMembers fuel (skipWs r4).tail).map
                (fun p => (.cons (String.mk k) v p.1, p.2))
            else if (skipWs r4).head? = some '\x7d' then
              some (.cons (String.mk k) v .nil, (skipWs r4).tail)
            else none
        else none
    | _ => none
end

/-- json.loads: parse a complete document, requiring only whitespace
after the value.  The fuel s.length + 1 is enough for any input the
parser accepts (every recursive call sits behind at least one consumed
character). -/
def loads (s : String) : Option Json :=
  match parseVal (s.length + 1) s.data with
  | some (j, rest) => if skipWs rest = [] then some j else none
  | none => none

/-! ### src/utils/generic.py -/

/-- Python url.replace applied to the first pattern: remove every
occurrence of the seven protocol characters, scanning left to right
without overlap. -/
def removeHttp : List Char → List Char
  | [] => []
  | 'h' :: 't' :: 't' :: 'p' :: ':' :: '/' :: '/' :: rest => removeHttp rest
  | c :: rest => c :: removeHttp rest

/-- Python url.replace applied to the second pattern. -/
def removeHttps : List Char → List Char
  | [] => []
  | 'h' :: 't' :: 't' :: 'p' :: 's' :: ':' :: '/' :: '/' :: rest => removeHttps rest
  | c :: rest => c :: removeHttps rest

/-- The underscore replacement and truncation step of the filename
derivation, before the .json extension is appended: strip the protocol
substrings, replace every character that is not alphanumeric by an
underscore (Python c.isalnum, modelled on the ASCII alphabet), and
truncate to 100 characters. -/
def sanitizeCore (url : List Char) : List Char :=
  (((removeHttps (removeHttp url)).map
    (fun c => if c.isAlphanum then c else '_')).take 100)

/-- The whole filename derivation inside save_data_to_json: the core
followed by the .json extension. -/
def deriveFilenameChars (url : List Char) : List Char :=
  sanitizeCore url ++ ['.', 'j', 's', 'o', 'n']

/-- String-level wrapper of the filename derivation. -/
def derive_filename (url : String) : String :=
  String.mk (deriveFilenameChars url.data)

/-- File-system model: the files on disk (path with contents, newest
write first) plus a flag saying whether disk I/O raises (one flag,
because the source wraps all of makedirs, open and write in a single
except-Exception handler). -/
structure FS where
  files : List (String × String)
  ioFail : Bool

/-- Writing a file replaces any previous contents at the same path. -/
def FS.write (fs : FS) (path contents : String) : FS :=
  { fs with files := (path, contents) :: fs.files.filter (fun p => p.1 != path) }

/-- Reading a file returns its contents if present. -/
def FS.read (fs : FS) (path : String) : Option String :=
  (fs.files.find? (fun p => p.1 == path)).map (fun p => p.2)

/-- save_data_to_json: derive the filename from the URL, join it to the
folder, write the payload as indented JSON, and return the filepath;
on any I/O exception return None. -/
def save_data_to_json (fs : FS) (data : Json) (url folder : String) :
    Option String × FS :=
  if fs.ioFail then (none, fs)
  else
    let filepath := folder ++ "/" ++ derive_filename url
    (some filepath, fs.write filepath (Json.dumps data))

/-- read_saved_data: open the file and json.load it, returning None on
any exception (missing file, I/O failure, or malformed contents). -/
def read_saved_data (fs : FS) (filepath : String) : Option Json :=
  if fs.ioFail then none
  else
    match fs.read filepath with
    | none => none
    | some contents => loads contents

/-! ### src/utils/next_data_extractor.py -/

/-- DEFAULT_BLOCKED_DOMAINS of NextDataExtractor. -/
def DEFAULT_BLOCKED_DOMAINS : List String :=
  ["plausible.io", "google-analytics.com", "analytics.google.com",
   "googletagmanager.com", "hotjar.com", "mixpanel.com", "segment.io",
   "segment.com", "matomo.cloud", "matomo.org", "clarity.ms",
   "facebook.net", "facebook.com", "linkedin.com", "twitter.com",
   "amplitude.com", "heap.io", "fullstory.com", "logrocket.com",
   "mouseflow.com", "doubleclick.net", "quantserve.com",
   "scorecardresearch.com", "chartbeat.com", "kissmetrics.com",
   "clicky.com", "newrelic.com", "adobe.com", "crazyegg.com"]

/-- _configure_chrome_options: the list of Chrome command-line
arguments the constructor assembles (the two experimental options are
not modelled separately; they carry no logic). -/
def configure_chrome_options (headless : Bool) (blocked_domains : List String) :
    List String :=
  (if headless then [("--headless=new")] else []) ++
  [("--no-sandbox"), ("--disable-dev-shm-usage"), ("--disable-gpu"),
   ("--window-size=1920,1080"), ("--disable-extensions"),
   ("--disable-popup-blocking"), ("--disable-infobars"),
   ("--disable-notifications"),
   ("--disable-blink-features=AutomationControlled"),
   ("--user-agent=Mozilla/5.0 (Windows NT 10.0; Win64; x64) AppleWebKit/537.36 (KHTML, like Gecko) Chrome/131.0.0.0 Safari/537.36"),
   ("--lang=nl-NL,nl;q=0.9,en-US;q=0.8,en;q=0.7")] ++
  (if blocked_domains.isEmpty then []
   else [("--host-blocking-patterns=" ++ String.intercalate (",") blocked_domains)])

/-- The state held in self: the extraction request configuration, as
set up by NextDataExtractor.__init__. -/
structure NextDataExtractor where
  homepage_url : String
  headless : Bool
  blocked_domains : List String
  chrome_options : List String

/-- NextDataExtractor.__init__(homepage_url, headless, blocked_domains):
blocked_domains defaults to DEFAULT_BLOCKED_DOMAINS when None. -/
def NextDataExtractor.init (homepage_url : String) (headless : Bool)
    (blocked_domains : Option (List String)) : NextDataExtractor :=
  { homepage_url := homepage_url
    headless := headless
    blocked_domains := blocked_domains.getD DEFAULT_BLOCKED_DOMAINS
    chrome_options :=
      configure_chrome_options headless (blocked_domains.getD DEFAULT_BLOCKED_DOMAINS) }

/-- Oracle for every external call the extractor makes: the host
platform name, the outcome of each platform launch strategy, and the
rendering backend's answers.  A some msg in an Exn field means the
corresponding Selenium call raises an exception with that message. -/
structure Backend where
  system : String
  windowsLaunch : Except String Unit
  managerLaunch : Except String Unit
  setTimeoutExn : Option String
  navigateExn : String → Option String
  scrollExn : Option String
  readyStateComplete : Bool
  elementPresent : Bool
  textContentAttr : Option String
  textAttr : Option String

/-- The session state the extractor mutates: self.driver plus a
counter of driver.quit() calls (the counter is ghost state used to
express the close-exactly-once property). -/
structure SessState where
  driver : Option Unit
  quitCount : Nat
deriving DecidableEq

/-- _initialize_driver: on Windows try the direct Service launch, on
every other platform try the webdriver-manager launch; a successful
launch assigns self.driver and returns; otherwise the collected
failure descriptions are joined into the raised exception message. -/
def init_driver (b : Backend) (s : SessState) :
    Except (String × SessState) SessState :=
  if b.system == "Windows" then
    match b.windowsLaunch with
    | .ok _ => .ok { s with driver := some () }
    | .error e =>
      .error ("Failed to create Chrome WebDriver after multiple attempts:\n" ++
        ("Windows approach failed: " ++ e), s)
  else
    match b.managerLaunch with
    | .ok _ => .ok { s with driver := some () }
    | .error e =>
      .error ("Failed to create Chrome WebDriver after multiple attempts:\n" ++
        ("Non-Windows approach failed: " ++ e), s)

/-- _close_driver: quit and clear the driver if there is one, do
nothing otherwise. -/
def close_driver (s : SessState) : SessState :=
  match s.driver with
  | some _ => { driver := none, quitCount := s.quitCount + 1 }
  | none => s

/-- Python or over optional strings (None or str): the first truthy
operand wins, where a string is truthy iff non-empty. -/
def pyOrStr (a b : Option String) : Option String :=
  match a with
  | some v => if v == "" then b else some v
  | none => b

/-- The whitespace characters Python str.strip() removes (the ASCII
ones; the model alphabet). -/
def isPyWs (c : Char) : Bool :=
  c = ' ' || c = '\t' || c = '\n' || c = '\r' || c = '\x0b' || c = '\x0c'

/-- Python str.strip(). -/
def pyStrip (s : List Char) : List Char :=
  ((s.dropWhile isPyWs).reverse.dropWhile isPyWs).reverse

/-- Substring test, as Python k in s evaluates on strings. -/
def containsSub (pat : List Char) : List Char → Bool
  | [] => pat.isEmpty
  | c :: rest => pat.isPrefixOf (c :: rest) || containsSub pat rest

/-- Membership of a string in a parsed JSON array, as Python k in l
evaluates on lists. -/
def jsonListElem (k : String) : JsonList → Bool
  | .nil => false
  | .cons hd tl => hd == .str k || jsonListElem k tl

/-- Python k in j on a json.loads result: key test on dicts,
membership on lists, substring test on strings; TypeError on the
scalar types. -/
def pyContains (j : Json) (k : String) : Except String Bool :=
  match j with
  | .obj m => .ok (m.hasKey k)
  | .arr xs => .ok (jsonListElem k xs)
  | .str v => .ok (containsSub k.data v.data)
  | _ => .error ("TypeError: argument of non-iterable type")

/-- Python j[k] on a json.loads result: dict lookup raising KeyError
on a missing key, TypeError on every non-dict. -/
def pySubscript (j : Json) (k : String) : Except String Json :=
  match j with
  | .obj m =>
    match m.lookup k with
    | some v => .ok v
    | none => .error ("KeyError: " ++ k)
  | _ => .error ("TypeError: indices of wrong type")

/-- The schema validation at the end of the try-block of
extract_page_props: the condition props in next_data and pageProps in
next_data[props] with Python short-circuiting and dynamic typing;
on success the returned value is next_data[props][pageProps], on a
failed test a ValueError is raised. -/
def validatePageProps (next_data : Json) (s1 : SessState) :
    Except (String × SessState) (Json × SessState) :=
  match pyContains next_data ("props") with
  | .error e => .error (e, s1)
  | .ok false => .error ("ValueError: Missing props.pageProps in __NEXT_DATA__", s1)
  | .ok true =>
    match pySubscript next_data ("props") with
    | .error e => .error (e, s1)
    | .ok props =>
      match pyContains props ("pageProps") with
      | .error e => .error (e, s1)
      | .ok false => .error ("ValueError: Missing props.pageProps in __NEXT_DATA__", s1)
      | .ok true =>
        match pySubscript next_data ("props") with
        | .error e => .error (e, s1)
        | .ok props2 =>
          match pySubscript props2 ("pageProps") with
          | .error e => .error (e, s1)
          | .ok pp => .ok (pp, s1)

/-- The element text the code reads: get_attribute textContent, with
get_attribute text as fallback, then the empty string (the Python
expression a or b or "").  -/
def scriptTextOf (b : Backend) : String :=
  (pyOrStr (pyOrStr b.textContentAttr b.textAttr) (some (""))).getD ("")

/-- The try-block of extract_page_props, every external call in source
order: initialize the driver, set the page-load timeout, navigate to
the homepage, navigate to the target page, scroll, wait for
document.readyState complete, wait for the __NEXT_DATA__ element, read
its textContent with text as fallback, reject empty or
whitespace-only content, json.loads the text, and validate the
props.pageProps path.  The first raised exception aborts the block.
time.sleep calls and prints are pure no-ops and not modelled. -/
def extractTryBody (ex : NextDataExtractor) (b : Backend) (page_url : String)
    (s : SessState) : Except (String × SessState) (Json × SessState) :=
  match init_driver b s with
  | .error es => .error es
  | .ok s1 =>
    match b.setTimeoutExn with
    | some e => .error (e, s1)
    | none =>
      match b.navigateExn ex.homepage_url with
      | some e => .error (e, s1)
      | none =>
        match b.navigateExn page_url with
        | some e => .error (e, s1)
        | none =>
          match b.scrollExn with
          | some e => .error (e, s1)
          | none =>
            match b.readyStateComplete with
            | false =>
              .error ("TimeoutException: readyState not complete within 30s", s1)
            | true =>
              match b.elementPresent with
              | false =>
                .error ("TimeoutException: __NEXT_DATA__ not present within 10s", s1)
              | true =>
                match scriptTextOf b == "" || pyStrip (scriptTextOf b).data == [] with
                | true =>
                  .error ("ValueError: Empty __NEXT_DATA__ script content", s1)
                | false =>
                  match loads (scriptTextOf b) with
                  | none => .error ("json.JSONDecodeError: invalid JSON", s1)
                  | some next_data => validatePageProps next_data s1

/-- extract_page_props: run the try-block; any raised exception is
caught and converted to None; the finally-block closes the driver on
both paths. -/
def extract_page_props (ex : NextDataExtractor) (b : Backend)
    (page_url : String) (s : SessState) : Option Json × SessState :=
  match extractTryBody ex b page_url s with
  | .ok (j, s1) => (some j, close_driver s1)
  | .error (_, s1) => (none, close_driver s1)

/-- extract_and_save: extract, and if the result is truthy save it
under the data folder (ignoring the save result) and return True;
otherwise return False. -/
def extract_and_save (ex : NextDataExtractor) (b : Backend) (fs : FS)
    (page_url : String) (s : SessState) : Bool × SessState × FS :=
  let res := extract_page_props ex b page_url s
  match res.1 with
  | some pp =>
    if pp.truthy then
      let saved := save_data_to_json fs pp page_url ("data")
      (true, res.2, saved.2)
    else (false, res.2, fs)
  | none => (false, res.2, fs)

/-- The free function extract_next_data: construct a NextDataExtractor
with the same arguments and delegate to extract_and_save. -/
def extract_next_data (homepage_url page_url : String) (headless : Bool)
    (blocked_domains : Option (List String)) (b : Backend) (fs : FS)
    (s : SessState) : Bool × SessState × FS :=
  let extractor := NextDataExtractor.init homepage_url headless blocked_domains
  extract_and_save extractor b fs page_url s

/-! ### Lemmas: the parser inverts the serializer -/

mutual
/-- Recursion depth of a value, the fuel the parser needs for it. -/
def Json.psize : Json → Nat
  | .null => 1
  | .bool _ => 1
  | .num _ => 1
  | .str _ => 1
  | .arr xs => xs.psize + 1
  | .obj m => m.psize + 1

def JsonList.psize : JsonList → Nat
  | .nil => 1
  | .cons hd tl => hd.psize + tl.psize + 1

def JsonObj.psize : JsonObj → Nat
  | .nil => 1
  | .cons _ v tl => v.psize + tl.psize + 1
end

/-- The continuation after a serialized number must not begin with a
digit, or the number grammar would swallow it. -/
def noDigitHead : List Char → Prop
  | [] => True
  | c :: _ => c.isDigit = false

/-- The first character of a serialized value: never whitespace and
never a closing bracket, so after skipping whitespace the parser's
dispatch sees the value itself. -/
def startsValue : List Char → Prop
  | [] => False
  | c :: _ => isJsonWs c = false ∧ c ≠ ']' ∧ c ≠ '\x7d'

/-- The two-level props to pageProps path the spec talks about:
present iff the parsed value is an object whose props member is an
object carrying a pageProps key. -/
def hasPagePropsPath : Json → Bool
  | .obj m =>
    match m.lookup ("props") with
    | some (.obj m2) => m2.hasKey ("pageProps")
    | _ => false
  | _ => false

/-! ### Concrete fixtures used by the claim theorems -/

/-- A session that has not opened a driver yet. -/
def freshSession : SessState := { driver := none, quitCount := 0 }

/-- An empty disk with working I/O. -/
def emptyFS : FS := { files := [], ioFail := false }

/-- An empty disk whose I/O raises (save_data_to_json's except branch). -/
def failingFS : FS := { files := [], ioFail := true }

/-- A rendering backend that answers every call successfully and
exposes a data-injection element whose textContent is txt. -/
def okBackend (txt : String) : Backend :=
  { system := "Linux"
    windowsLaunch := .error ("no local chromedriver")
    managerLaunch := .ok ()
    setTimeoutExn := none
    navigateExn := fun _ => none
    scrollExn := none
    readyStateComplete := true
    elementPresent := true
    textContentAttr := some txt
    textAttr := none }

/-- An extractor constructed with default blocked domains. -/
def demoExtractor : NextDataExtractor :=
  NextDataExtractor.init ("http://home.example") true none

/-- Element text carrying the props.pageProps payload of the spec's
mock-backend scenario. -/
def goodTxt : String := "\x7b\"props\":\x7b\"pageProps\":\x7b\"a\":1\x7d\x7d\x7d"

/-- Valid JSON lacking the props.pageProps path. -/
def schemaMismatchTxt : String := "\x7b\"other\":1\x7d"

/-- Valid JSON whose pageProps value is the empty object. -/
def emptyPropsTxt : String := "\x7b\"props\":\x7b\"pageProps\":\x7b\x7d\x7d\x7d"

/-! ### Spec-side model of the launch-strategy list (claim C2) -/

/-- Spec-side model: the ordered launch strategies the code attempts
on the given host platform, each labelled with the failure prefix the
code would record for it.  On Windows only the direct Service launch
is attempted; on every other platform only the webdriver-manager
launch. -/
def launchStrategies (b : Backend) : List (String × Except String Unit) :=
  if b.system == "Windows" then
    [(("Windows approach failed: "), b.windowsLaunch)]
  else
    [(("Non-Windows approach failed: "), b.managerLaunch)]

/-- Spec-side model: try the strategies in order, first success wins;
when none succeeds, fail carrying the collected failure reasons in
order. -/
def firstSuccess : List (String × Except String Unit) → Except (List String) Unit
  | [] => .error []
  | (label, act) :: rest =>
    match act with
    | .ok _ => .ok ()
    | .error e =>
      match firstSuccess rest with
      | .ok _ => .ok ()
      | .error es => .error ((label ++ e) :: es)

/-- Spec-side model of joining the collected reasons with newlines. -/
def joinLines : List String → String
  | [] => ""
  | [x] => x
  | x :: y :: rest => x ++ "\n" ++ joinLines (y :: rest)

theorem digitChar_spec :
    ∀ m : Nat, m < 10 →
      (Nat.digitChar m).isDigit = true ∧ digitVal (Nat.digitChar m) = m := by
  decide

theorem natToCharsF_ne_nil (fuel n : Nat) (h : n < fuel) :
    natToCharsF fuel n ≠ [] := by
  cases fuel with
  | zero => omega
  | succ f =>
    unfold natToCharsF
    split
    · simp
    · simp

theorem natToChars_ne_nil (n : Nat) : natToChars n ≠ [] :=
  natToCharsF_ne_nil (n + 1) n (by omega)

theorem natToCharsF_all_digits (fuel : Nat) :
    ∀ n, ∀ c ∈ natToCharsF fuel n, c.isDigit = true := by
  induction fuel with
  | zero =>
    intro n c hc
    simp [natToCharsF] at hc
  | succ f ih =>
    intro n c hc
    unfold natToCharsF at hc
    split at hc
    · simp only [List.mem_singleton] at hc
      subst hc
      exact (digitChar_spec n (by omega)).1
    · rw [List.mem_append, List.mem_singleton] at hc
      rcases hc with hc | hc
      · exact ih (n / 10) c hc
      · subst hc
        exact (digitChar_spec (n % 10) (Nat.mod_lt _ (by omega))).1

theorem natToChars_all_digits (n : Nat) :
    ∀ c ∈ natToChars n, c.isDigit = true :=
  natToCharsF_all_digits (n + 1) n

theorem parseNatLoop_digits (l : List Char) (hl : ∀ c ∈ l, c.isDigit = true)
    (rest : List Char) (hrest : noDigitHead rest) :
    ∀ acc, parseNatLoop acc (l ++ rest) =
      (l.foldl (fun a c => a * 10 + digitVal c) acc, rest) := by
  induction l with
  | nil =>
    intro acc
    cases rest with
    | nil => rfl
    | cons c t =>
      simp only [noDigitHead] at hrest
      simp [parseNatLoop, hrest]
  | cons c t ih =>
    intro acc
    have hc : c.isDigit = true := hl c (by simp)
    simp only [List.cons_append, parseNatLoop, hc, if_true, List.foldl_cons]
    exact ih (fun d hd => hl d (by simp [hd])) (acc * 10 + digitVal c)

theorem foldl_natToCharsF (fuel : Nat) :
    ∀ n, n < fuel →
      ∀ acc, (natToCharsF fuel n).foldl (fun a c => a * 10 + digitVal c) acc =
        acc * 10 ^ (natToCharsF fuel n).length + n := by
  induction fuel with
  | zero => omega
  | succ f ih =>
    intro n hn acc
    unfold natToCharsF
    split
    · simp only [List.foldl_cons, List.foldl_nil, List.length_singleton,
        pow_one, (digitChar_spec n (by omega)).2]
    · have hrec : n / 10 < f := by omega
      rw [List.foldl_append, List.foldl_cons, List.foldl_nil,
        ih (n / 10) hrec acc,
        (digitChar_spec (n % 10) (Nat.mod_lt _ (by omega))).2,
        List.length_append, List.length_singleton, pow_succ]
      have := Nat.div_add_mod n 10
      ring_nf
      omega

theorem foldl_natToChars (n : Nat) :
    ∀ acc, (natToChars n).foldl (fun a c => a * 10 + digitVal c) acc =
      acc * 10 ^ (natToChars n).length + n :=
  foldl_natToCharsF (n + 1) n (by omega)

theorem parseNum_natToChars (n : Nat) (rest : List Char)
    (hrest : noDigitHead rest) :
    parseNum (natToChars n ++ rest) = some (n, rest) := by
  obtain ⟨c, l, hcl⟩ := List.exists_cons_of_ne_nil (natToChars_ne_nil n)
  have hdig : ∀ d ∈ natToChars n, d.isDigit = true := natToChars_all_digits n
  have hc : c.isDigit = true := hdig c (by rw [hcl]; simp)
  rw [hcl, List.cons_append]
  simp only [parseNum, hc, if_true]
  have hl : ∀ d ∈ l, d.isDigit = true := by
    intro d hd
    exact hdig d (by rw [hcl]; simp [hd])
  rw [parseNatLoop_digits l hl rest hrest (digitVal c)]
  have hfold := foldl_natToChars n 0
  rw [hcl] at hfold
  simp only [List.foldl_cons, Nat.zero_mul, Nat.zero_add] at hfold
  rw [hfold]

theorem skipWs_ws_drop (pre : List Char) (l : List Char)
    (h : ∀ c ∈ pre, isJsonWs c = true) : skipWs (pre ++ l) = skipWs l := by
  induction pre with
  | nil => rfl
  | cons c t ih =>
    have hc : isJsonWs c = true := h c (by simp)
    simp only [List.cons_append, skipWs, hc, if_true]
    exact ih (fun d hd => h d (by simp [hd]))

theorem skipWs_not_ws (c : Char) (l : List Char) (h : isJsonWs c = false) :
    skipWs (c :: l) = c :: l := by
  simp [skipWs, h]

theorem nlIndent_ws (n : Nat) : ∀ c ∈ nlIndent n, isJsonWs c = true := by
  intro c hc
  simp only [nlIndent, spaces, List.mem_cons, List.mem_replicate] at hc
  rcases hc with hc | hc
  · subst hc; decide
  · rw [hc.2]; decide

theorem hexVal_digitChar : ∀ m : Nat, m < 16 → hexVal (Nat.digitChar m) = some m := by
  decide

theorem parseHexEsc_00 (d m : Nat) (hd : d < 16) (hm : m < 16)
    (X : List Char) :
    parseHexEsc 4 0 ('0' :: '0' :: Nat.digitChar d :: Nat.digitChar m :: X) =
      (parseStrBody X).map
        (fun p => (Char.ofNat (d * 16 + m) :: p.1, p.2)) := by
  show parseHexEsc 2 0 (Nat.digitChar d :: Nat.digitChar m :: X) = _
  rw [parseHexEsc, hexVal_digitChar _ hd]
  simp only [Nat.zero_mul, Nat.zero_add]
  rw [if_neg (by omega)]
  rw [parseHexEsc, hexVal_digitChar _ hm]
  simp only [Nat.zero_mul, Nat.zero_add]
  rw [if_pos (by omega)]

theorem parseStrBody_escape (s : List Char) (rest : List Char) :
    parseStrBody (escapeChars s ++ '"' :: rest) = some (s, rest) := by
  induction s with
  | nil => rfl
  | cons c t ih =>
    show parseStrBody ((escapeChar c ++ escapeChars t) ++ '"' :: rest) = _
    rw [List.append_assoc]
    by_cases h1 : c = '"'
    · subst h1
      show (parseStrBody (escapeChars t ++ '"' :: rest)).map
        (fun p => ('"' :: p.1, p.2)) = _
      rw [ih]
      rfl
    · by_cases h2 : c = '\\'
      · subst h2
        show (parseStrBody (escapeChars t ++ '"' :: rest)).map
          (fun p => ('\\' :: p.1, p.2)) = _
        rw [ih]
        rfl
      · by_cases h3 : c = '\n'
        · subst h3
          show (parseStrBody (escapeChars t ++ '"' :: rest)).map
            (fun p => ('\n' :: p.1, p.2)) = _
          rw [ih]
          rfl
        · by_cases h4 : c = '\t'
          · subst h4
            show (parseStrBody (escapeChars t ++ '"' :: rest)).map
              (fun p => ('\t' :: p.1, p.2)) = _
            rw [ih]
            rfl
          · by_cases h5 : c = '\r'
            · subst h5
              show (parseStrBody (escapeChars t ++ '"' :: rest)).map
                (fun p => ('\r' :: p.1, p.2)) = _
              rw [ih]
              rfl
            · by_cases h6 : c = '\x08'
              · subst h6
                show (parseStrBody (escapeChars t ++ '"' :: rest)).map
                  (fun p => ('\x08' :: p.1, p.2)) = _
                rw [ih]
                rfl
              · by_cases h7 : c = '\x0c'
                · subst h7
                  show (parseStrBody (escapeChars t ++ '"' :: rest)).map
                    (fun p => ('\x0c' :: p.1, p.2)) = _
                  rw [ih]
                  rfl
                · by_cases h8 : c.toNat < 32
                  · have hdiv : c.toNat / 16 < 16 := by omega
                    have hmod : c.toNat % 16 < 16 := Nat.mod_lt _ (by omega)
                    simp only [escapeChar, h1, h2, h3, h4, h5, h6, h7, h8,
                      if_false, if_true, if_neg, ite_true, List.cons_append,
                      List.nil_append]
                    show parseHexEsc 4 0 ('0' :: '0' ::
                      Nat.digitChar (c.toNat / 16) ::
                      Nat.digitChar (c.toNat % 16) ::
                      (escapeChars t ++ '"' :: rest)) = _
                    rw [parseHexEsc_00 _ _ hdiv hmod, ih]
                    have hval : c.toNat / 16 * 16 + c.toNat % 16 = c.toNat := by
                      omega
                    simp only [hval, Char.ofNat_toNat]
                    rfl
                  · simp only [escapeChar, h1, h2, h3, h4, h5, h6, h7, h8,
                      if_false, List.cons_append, List.nil_append]
                    rw [parseStrBody, if_neg h1, if_neg h2, ih]
                    rfl

theorem digit_ne (c d : Char) (h : c.isDigit = true) (hd : d.isDigit = false) :
    c ≠ d := by
  intro he
  rw [he, hd] at h
  cases h

theorem digit_not_ws (c : Char) (h : c.isDigit = true) : isJsonWs c = false := by
  simp only [isJsonWs, Bool.or_eq_false_iff, decide_eq_false_iff_not]
  exact ⟨⟨⟨digit_ne c ' ' h (by decide), digit_ne c '\t' h (by decide)⟩,
    digit_ne c '\n' h (by decide)⟩, digit_ne c '\r' h (by decide)⟩


theorem intToChars_startsValue (n : Int) : startsValue (intToChars n) := by
  unfold intToChars
  split
  · exact ⟨by decide, by decide, by decide⟩
  · obtain ⟨c, l, hcl⟩ := List.exists_cons_of_ne_nil (natToChars_ne_nil n.toNat)
    have hc : c.isDigit = true :=
      natToChars_all_digits n.toNat c (by rw [hcl]; simp)
    rw [hcl]
    exact ⟨digit_not_ws c hc, digit_ne c ']' hc (by decide),
      digit_ne c '\x7d' hc (by decide)⟩

theorem dump_startsValue (ind : Nat) (j : Json) :
    startsValue (Json.dump ind j) := by
  cases j with
  | null => exact ⟨by decide, by decide, by decide⟩
  | bool b =>
    cases b
    · exact ⟨by decide, by decide, by decide⟩
    · exact ⟨by decide, by decide, by decide⟩
  | num n => exact intToChars_startsValue n
  | str s => exact ⟨by decide, by decide, by decide⟩
  | arr xs =>
    cases xs
    · exact ⟨by decide, by decide, by decide⟩
    · exact ⟨by decide, by decide, by decide⟩
  | obj m =>
    cases m
    · exact ⟨by decide, by decide, by decide⟩
    · exact ⟨by decide, by decide, by decide⟩

theorem skipWs_startsValue (l : List Char) (h : startsValue l) :
    skipWs l = l := by
  cases l with
  | nil => cases h
  | cons c t => exact skipWs_not_ws c t h.1

/-- Skipping whitespace before a serialized value, with anything
appended after it, lands exactly on the value. -/
theorem skipWs_pre_dump (pre : List Char) (hpre : ∀ c ∈ pre, isJsonWs c = true)
    (l : List Char) (h : startsValue l) (post : List Char) :
    skipWs (pre ++ (l ++ post)) = l ++ post := by
  rw [skipWs_ws_drop pre (l ++ post) hpre]
  cases l with
  | nil => cases h
  | cons c t => exact skipWs_not_ws c (t ++ post) h.1

theorem parseVal_ws_drop (fuel : Nat) (pre l : List Char)
    (h : ∀ c ∈ pre, isJsonWs c = true) :
    parseVal fuel (pre ++ l) = parseVal fuel l := by
  cases fuel with
  | zero => rfl
  | succ f => rw [parseVal, parseVal, skipWs_ws_drop pre l h]

theorem parseElems_ws_drop (fuel : Nat) (pre l : List Char)
    (h : ∀ c ∈ pre, isJsonWs c = true) :
    parseElems fuel (pre ++ l) = parseElems fuel l := by
  cases fuel with
  | zero => rfl
  | succ f => rw [parseElems, parseElems, parseVal_ws_drop f pre l h]

theorem parseMembers_ws_drop (fuel : Nat) (pre l : List Char)
    (h : ∀ c ∈ pre, isJsonWs c = true) :
    parseMembers fuel (pre ++ l) = parseMembers fuel l := by
  cases fuel with
  | zero => rfl
  | succ f => rw [parseMembers, parseMembers, skipWs_ws_drop pre l h]

theorem startsValue_head_ne (l post : List Char) (h : startsValue l)
    (d : Char) (hd : d = ']' ∨ d = '\x7d') :
    ¬(l ++ post).head? = some d := by
  cases l with
  | nil => cases h
  | cons c t =>
    intro heq
    simp only [List.cons_append, List.head?_cons, Option.some.injEq] at heq
    rcases hd with hd | hd
    · exact h.2.1 (heq.trans hd)
    · exact h.2.2 (heq.trans hd)

theorem psize_pos (j : Json) : 1 ≤ j.psize := by
  cases j <;> simp [Json.psize]

theorem psizeL_pos (xs : JsonList) : 1 ≤ xs.psize := by
  cases xs <;> simp [JsonList.psize]

theorem psizeO_pos (m : JsonObj) : 1 ≤ m.psize := by
  cases m <;> simp [JsonObj.psize]

theorem skipWs_cons_ws (c : Char) (l : List Char) (h : isJsonWs c = true) :
    skipWs (c :: l) = skipWs l := by
  simp [skipWs, h]

theorem parseVal_cons_ws (fuel : Nat) (c : Char) (l : List Char)
    (h : isJsonWs c = true) :
    parseVal fuel (c :: l) = parseVal fuel l := by
  cases fuel with
  | zero => rfl
  | succ f => rw [parseVal, parseVal, skipWs_cons_ws c l h]

theorem quote_startsValue (s : List Char) : startsValue (quoteChars s) :=
  ⟨by decide, by decide, by decide⟩

theorem parseVal_arr_branch (f : Nat) (r : List Char) :
    parseVal (f + 1) ('[' :: r) =
      if (skipWs r).head? = some ']' then some (.arr .nil, (skipWs r).tail)
      else (parseElems f (skipWs r)).map (fun p => (.arr p.1, p.2)) := rfl

theorem parseVal_obj_branch (f : Nat) (r : List Char) :
    parseVal (f + 1) ('\x7b' :: r) =
      if (skipWs r).head? = some '\x7d' then some (.obj .nil, (skipWs r).tail)
      else (parseMembers f (skipWs r)).map (fun p => (.obj p.1, p.2)) := rfl

theorem parseElems_step (f : Nat) (s : List Char) (v : Json) (r : List Char)
    (hv : parseVal f s = some (v, r)) :
    parseElems (f + 1) s =
      if (skipWs r).head? = some ',' then
        (parseElems f (skipWs r).tail).map (fun p => (.cons v p.1, p.2))
      else if (skipWs r).head? = some ']' then
        some (.cons v .nil, (skipWs r).tail)
      else none := by
  rw [parseElems, hv]

theorem parseMembers_step (f : Nat) (r k r2 : List Char) (v : Json)
    (r4 : List Char)
    (hk : parseStrBody r = some (k, r2))
    (hcolon : (skipWs r2).head? = some ':')
    (hv : parseVal f (skipWs r2).tail = some (v, r4)) :
    parseMembers (f + 1) ('"' :: r) =
      if (skipWs r4).head? = some ',' then
        (parseMembers f (skipWs r4).tail).map
          (fun p => (.cons (String.mk k) v p.1, p.2))
      else if (skipWs r4).head? = some '\x7d' then
        some (.cons (String.mk k) v .nil, (skipWs r4).tail)
      else none := by
  have h1 : parseMembers (f + 1) ('"' :: r) =
      match parseStrBody r with
      | none => none
      | some (k, r2) =>
        if (skipWs r2).head? = some ':' then
          match parseVal f (skipWs r2).tail with
          | none => none
          | some (v, r4) =>
            if (skipWs r4).head? = some ',' then
              (parseMembers f (skipWs r4).tail).map
                (fun p => (.cons (String.mk k) v p.1, p.2))
            else if (skipWs r4).head? = some '\x7d' then
              some (.cons (String.mk k) v .nil, (skipWs r4).tail)
            else none
        else none := rfl
  rw [h1, hk]
  show (if (skipWs r2).head? = some ':' then
          match parseVal f (skipWs r2).tail with
          | none => none
          | some (v, r4) =>
            if (skipWs r4).head? = some ',' then
              (parseMembers f (skipWs r4).tail).map
                (fun p => (JsonObj.cons (String.mk k) v p.1, p.2))
            else if (skipWs r4).head? = some '\x7d' then
              some (JsonObj.cons (String.mk k) v JsonObj.nil, (skipWs r4).tail)
            else none
        else none) =
      (if (skipWs r4).head? = some ',' then
        (parseMembers f (skipWs r4).tail).map
          (fun p => (JsonObj.cons (String.mk k) v p.1, p.2))
      else if (skipWs r4).head? = some '\x7d' then
        some (JsonObj.cons (String.mk k) v JsonObj.nil, (skipWs r4).tail)
      else none)
  rw [if_pos hcolon, hv]

/-- Round trip of the serializer through the parser, by strong
induction on the size bound N: part one for values, part two for the
elements of a non-empty array, part three for the members of a
non-empty object. -/
theorem dump_parse_aux (N : Nat) :
    (∀ j : Json, j.psize ≤ N → ∀ ind fuel rest, j.psize ≤ fuel →
      noDigitHead rest →
      parseVal fuel (Json.dump ind j ++ rest) = some (j, rest)) ∧
    (∀ (hd : Json) (tl : JsonList), JsonList.psize (.cons hd tl) ≤ N →
      ∀ ind ind2 fuel rest, JsonList.psize (.cons hd tl) ≤ fuel →
      parseElems fuel (Json.dump ind hd ++ (JsonList.dumpTail ind tl ++
        (nlIndent ind2 ++ (']' :: rest)))) = some (.cons hd tl, rest)) ∧
    (∀ (k : String) (v : Json) (tl : JsonObj),
      JsonObj.psize (.cons k v tl) ≤ N →
      ∀ ind ind2 fuel rest, JsonObj.psize (.cons k v tl) ≤ fuel →
      parseMembers fuel (quoteChars k.data ++ (':' :: ' ' ::
        (Json.dump ind v ++ (JsonObj.dumpTail ind tl ++
          (nlIndent ind2 ++ ('\x7d' :: rest)))))) =
        some (.cons k v tl, rest)) := by
  induction N with
  | zero =>
    refine ⟨?_, ?_, ?_⟩
    · intro j hj
      have := psize_pos j
      omega
    · intro hd tl hN
      have := psizeL_pos (JsonList.cons hd tl)
      omega
    · intro k v tl hN
      have := psizeO_pos (JsonObj.cons k v tl)
      omega
  | succ N ih =>
    obtain ⟨ih1, ih2, ih3⟩ := ih
    refine ⟨?_, ?_, ?_⟩
    · -- part one: values
      intro j hj ind fuel rest hfuel hrest
      have hf1 : 1 ≤ fuel := le_trans (psize_pos j) hfuel
      obtain ⟨f, rfl⟩ : ∃ f, fuel = f + 1 := ⟨fuel - 1, by omega⟩
      cases j with
      | null => rfl
      | bool b => cases b <;> rfl
      | num n =>
        show parseVal (f + 1) (intToChars n ++ rest) = some (.num n, rest)
        by_cases hneg : n < 0
        · rw [intToChars, if_pos hneg]
          show (parseNum (natToChars n.natAbs ++ rest)).map
            (fun p => (Json.num (-(p.1 : Int)), p.2)) = some (.num n, rest)
          rw [parseNum_natToChars _ _ hrest]
          show some (Json.num (-(n.natAbs : Int)), rest) = some (Json.num n, rest)
          have he : -((n.natAbs : Int)) = n := by omega
          rw [he]
        · rw [intToChars, if_neg hneg]
          obtain ⟨c, l, hcl⟩ :=
            List.exists_cons_of_ne_nil (natToChars_ne_nil n.toNat)
          have hc : c.isDigit = true :=
            natToChars_all_digits n.toNat c (by rw [hcl]; simp)
          rw [hcl, List.cons_append, parseVal,
            skipWs_not_ws c (l ++ rest) (digit_not_ws c hc)]
          simp only [if_neg (digit_ne c 'n' hc (by decide)),
            if_neg (digit_ne c 't' hc (by decide)),
            if_neg (digit_ne c 'f' hc (by decide)),
            if_neg (digit_ne c '"' hc (by decide)),
            if_neg (digit_ne c '[' hc (by decide)),
            if_neg (digit_ne c '\x7b' hc (by decide)),
            if_neg (digit_ne c '-' hc (by decide)), hc, if_true]
          rw [show c :: (l ++ rest) = natToChars n.toNat ++ rest from by
            rw [hcl, List.cons_append]]
          rw [parseNum_natToChars _ _ hrest]
          have he : ((n.toNat : Int)) = n := by omega
          show some (Json.num ((n.toNat : Int)), rest) = some (Json.num n, rest)
          rw [he]
      | str s =>
        show (parseStrBody ((escapeChars s.data ++ ['"']) ++ rest)).map
          (fun p => (Json.str (String.mk p.1), p.2)) = some (.str s, rest)
        rw [List.append_assoc, List.singleton_append, parseStrBody_escape]
        rfl
      | arr xs =>
        cases xs with
        | nil => rfl
        | cons hd tl =>
          have hsz : JsonList.psize (.cons hd tl) ≤ N := by
            simp only [Json.psize] at hj
            omega
          have hszf : JsonList.psize (.cons hd tl) ≤ f := by
            simp only [Json.psize] at hfuel
            omega
          have hlist : Json.dump ind (.arr (.cons hd tl)) ++ rest =
              '[' :: (nlIndent (ind + 2) ++ (Json.dump (ind + 2) hd ++
                (JsonList.dumpTail (ind + 2) tl ++
                  (nlIndent ind ++ (']' :: rest))))) := by
            show ('[' :: (nlIndent (ind + 2) ++ Json.dump (ind + 2) hd ++
              JsonList.dumpTail (ind + 2) tl ++ nlIndent ind ++ [']'])) ++
                rest = _
            simp [List.append_assoc]
          rw [hlist, parseVal_arr_branch,
            skipWs_pre_dump (nlIndent (ind + 2)) (nlIndent_ws _)
              (Json.dump (ind + 2) hd) (dump_startsValue _ _) _,
            if_neg (startsValue_head_ne _ _ (dump_startsValue _ _) ']'
              (Or.inl rfl)),
            ih2 hd tl hsz (ind + 2) ind f rest hszf]
          rfl
      | obj m =>
        cases m with
        | nil => rfl
        | cons k v tl =>
          have hsz : JsonObj.psize (.cons k v tl) ≤ N := by
            simp only [Json.psize] at hj
            omega
          have hszf : JsonObj.psize (.cons k v tl) ≤ f := by
            simp only [Json.psize] at hfuel
            omega
          have hlist : Json.dump ind (.obj (.cons k v tl)) ++ rest =
              '\x7b' :: (nlIndent (ind + 2) ++ (quoteChars k.data ++
                (':' :: ' ' :: (Json.dump (ind + 2) v ++
                  (JsonObj.dumpTail (ind + 2) tl ++
                    (nlIndent ind ++ ('\x7d' :: rest))))))) := by
            show ('\x7b' :: (nlIndent (ind + 2) ++ quoteChars k.data ++
              [':', ' '] ++ Json.dump (ind + 2) v ++
              JsonObj.dumpTail (ind + 2) tl ++ nlIndent ind ++ ['\x7d'])) ++
                rest = _
            simp [List.append_assoc]
          rw [hlist, parseVal_obj_branch,
            skipWs_pre_dump (nlIndent (ind + 2)) (nlIndent_ws _)
              (quoteChars k.data) (quote_startsValue _) _,
            if_neg (startsValue_head_ne _ _ (quote_startsValue _) '\x7d'
              (Or.inr rfl)),
            ih3 k v tl hsz (ind + 2) ind f rest hszf]
          rfl
    · -- part two: array elements
      intro hd tl hN ind ind2 fuel rest hfuel
      have hf1 : 1 ≤ fuel := le_trans (psizeL_pos _) hfuel
      obtain ⟨f, rfl⟩ : ∃ f, fuel = f + 1 := ⟨fuel - 1, by omega⟩
      have hhdN : Json.psize hd ≤ N := by
        simp only [JsonList.psize] at hN
        have := psizeL_pos tl
        omega
      have hhdf : Json.psize hd ≤ f := by
        simp only [JsonList.psize] at hfuel
        have := psizeL_pos tl
        omega
      have hnd : noDigitHead (JsonList.dumpTail ind tl ++
          (nlIndent ind2 ++ (']' :: rest))) := by
        cases tl
        · exact (by decide : ('\n').isDigit = false)
        · exact (by decide : (',').isDigit = false)
      have hv := ih1 hd hhdN ind f
        (JsonList.dumpTail ind tl ++ (nlIndent ind2 ++ (']' :: rest))) hhdf hnd
      rw [parseElems_step f _ hd _ hv]
      cases tl with
      | nil =>
        have hskip : skipWs (JsonList.dumpTail ind .nil ++
            (nlIndent ind2 ++ (']' :: rest))) = ']' :: rest := by
          show skipWs (([] : List Char) ++ (nlIndent ind2 ++ (']' :: rest))) = _
          rw [List.nil_append,
            skipWs_ws_drop _ _ (nlIndent_ws ind2),
            skipWs_not_ws _ _ (by decide)]
        rw [hskip, if_neg (by simp),
          if_pos (show ((']' :: rest).head? = some ']') from rfl)]
        rfl
      | cons h2 t2 =>
        have hszN : JsonList.psize (.cons h2 t2) ≤ N := by
          simp only [JsonList.psize] at hN ⊢
          have := psize_pos hd
          omega
        have hszf : JsonList.psize (.cons h2 t2) ≤ f := by
          simp only [JsonList.psize] at hfuel ⊢
          have := psize_pos hd
          omega
        have hBig : JsonList.dumpTail ind (.cons h2 t2) ++
            (nlIndent ind2 ++ (']' :: rest)) =
            ',' :: (nlIndent ind ++ (Json.dump ind h2 ++
              (JsonList.dumpTail ind t2 ++
                (nlIndent ind2 ++ (']' :: rest))))) := by
          show (',' :: (nlIndent ind ++ Json.dump ind h2 ++
            JsonList.dumpTail ind t2)) ++ (nlIndent ind2 ++ (']' :: rest)) = _
          simp [List.append_assoc]
        rw [hBig, skipWs_not_ws _ _ (by decide)]
        rw [if_pos (show ((',' :: (nlIndent ind ++ (Json.dump ind h2 ++
          (JsonList.dumpTail ind t2 ++ (nlIndent ind2 ++
            (']' :: rest)))))).head? = some ',') from rfl)]
        simp only [List.tail_cons]
        rw [parseElems_ws_drop f (nlIndent ind) _ (nlIndent_ws ind),
          ih2 h2 t2 hszN ind ind2 f rest hszf]
        rfl
    · -- part three: object members
      intro k v tl hN ind ind2 fuel rest hfuel
      have hf1 : 1 ≤ fuel := le_trans (psizeO_pos _) hfuel
      obtain ⟨f, rfl⟩ : ∃ f, fuel = f + 1 := ⟨fuel - 1, by omega⟩
      have hvN : Json.psize v ≤ N := by
        simp only [JsonObj.psize] at hN
        have := psizeO_pos tl
        omega
      have hvf : Json.psize v ≤ f := by
        simp only [JsonObj.psize] at hfuel
        have := psizeO_pos tl
        omega
      have hnd : noDigitHead (JsonObj.dumpTail ind tl ++
          (nlIndent ind2 ++ ('\x7d' :: rest))) := by
        cases tl
        · exact (by decide : ('\n').isDigit = false)
        · exact (by decide : (',').isDigit = false)
      have hv' := ih1 v hvN ind f
        (JsonObj.dumpTail ind tl ++ (nlIndent ind2 ++ ('\x7d' :: rest))) hvf hnd
      have hk : parseStrBody ((escapeChars k.data ++ ['"']) ++
          (':' :: ' ' :: (Json.dump ind v ++ (JsonObj.dumpTail ind tl ++
            (nlIndent ind2 ++ ('\x7d' :: rest)))))) =
          some (k.data, ':' :: ' ' :: (Json.dump ind v ++
            (JsonObj.dumpTail ind tl ++
              (nlIndent ind2 ++ ('\x7d' :: rest))))) := by
        rw [List.append_assoc, List.singleton_append]
        exact parseStrBody_escape _ _
      have hv2 : parseVal f (' ' :: (Json.dump ind v ++
          (JsonObj.dumpTail ind tl ++ (nlIndent ind2 ++ ('\x7d' :: rest))))) =
          some (v, JsonObj.dumpTail ind tl ++
            (nlIndent ind2 ++ ('\x7d' :: rest))) := by
        rw [parseVal_cons_ws f ' ' _ (by decide)]
        exact hv'
      show parseMembers (f + 1) ('"' :: ((escapeChars k.data ++ ['"']) ++
        (':' :: ' ' :: (Json.dump ind v ++ (JsonObj.dumpTail ind tl ++
          (nlIndent ind2 ++ ('\x7d' :: rest))))))) = _
      rw [parseMembers_step f _ k.data _ v _ hk rfl hv2]
      cases tl with
      | nil =>
        have hskip : skipWs (JsonObj.dumpTail ind .nil ++
            (nlIndent ind2 ++ ('\x7d' :: rest))) = '\x7d' :: rest := by
          show skipWs (([] : List Char) ++ (nlIndent ind2 ++ ('\x7d' :: rest))) = _
          rw [List.nil_append,
            skipWs_ws_drop _ _ (nlIndent_ws ind2),
            skipWs_not_ws _ _ (by decide)]
        rw [hskip, if_neg (by simp),
          if_pos (show (('\x7d' :: rest).head? = some '\x7d') from rfl)]
        rfl
      | cons k2 v2 t2 =>
        have hszN : JsonObj.psize (.cons k2 v2 t2) ≤ N := by
          simp only [JsonObj.psize] at hN ⊢
          have := psize_pos v
          omega
        have hszf : JsonObj.psize (.cons k2 v2 t2) ≤ f := by
          simp only [JsonObj.psize] at hfuel ⊢
          have := psize_pos v
          omega
        have hBig : JsonObj.dumpTail ind (.cons k2 v2 t2) ++
            (nlIndent ind2 ++ ('\x7d' :: rest)) =
            ',' :: (nlIndent ind ++ (quoteChars k2.data ++
              (':' :: ' ' :: (Json.dump ind v2 ++
                (JsonObj.dumpTail ind t2 ++
                  (nlIndent ind2 ++ ('\x7d' :: rest))))))) := by
          show (',' :: (nlIndent ind ++ quoteChars k2.data ++ [':', ' '] ++
            Json.dump ind v2 ++ JsonObj.dumpTail ind t2)) ++
              (nlIndent ind2 ++ ('\x7d' :: rest)) = _
          simp [List.append_assoc]
        rw [hBig, skipWs_not_ws _ _ (by decide)]
        rw [if_pos (show ((',' :: (nlIndent ind ++ (quoteChars k2.data ++
          (':' :: ' ' :: (Json.dump ind v2 ++ (JsonObj.dumpTail ind t2 ++
            (nlIndent ind2 ++ ('\x7d' :: rest)))))))).head? = some ',')
          from rfl)]
        simp only [List.tail_cons]
        rw [parseMembers_ws_drop f (nlIndent ind) _ (nlIndent_ws ind),
          ih3 k2 v2 t2 hszN ind ind2 f rest hszf]
        rfl

/-- The serialized form is at least as long as the parser fuel the
round trip needs. -/
theorem dump_length_aux (N : Nat) :
    (∀ j : Json, j.psize ≤ N → ∀ ind, j.psize ≤ (Json.dump ind j).length) ∧
    (∀ tl : JsonList, tl.psize ≤ N →
      ∀ ind, tl.psize ≤ (JsonList.dumpTail ind tl).length + 1) ∧
    (∀ tl : JsonObj, tl.psize ≤ N →
      ∀ ind, tl.psize ≤ (JsonObj.dumpTail ind tl).length + 1) := by
  induction N with
  | zero =>
    refine ⟨?_, ?_, ?_⟩
    · intro j hj
      have := psize_pos j
      omega
    · intro tl htl
      have := psizeL_pos tl
      omega
    · intro tl htl
      have := psizeO_pos tl
      omega
  | succ N ih =>
    obtain ⟨ih1, ih2, ih3⟩ := ih
    refine ⟨?_, ?_, ?_⟩
    · intro j hj ind
      cases j with
      | null => simp [Json.psize, Json.dump]
      | bool b => cases b <;> simp [Json.psize, Json.dump]
      | num n =>
        have : (intToChars n).length ≠ 0 := by
          unfold intToChars
          split
          · simp
          · simp [natToChars_ne_nil]
        show Json.psize (.num n) ≤ (intToChars n).length
        simp only [Json.psize]
        omega
      | str s =>
        show Json.psize (.str s) ≤ (quoteChars s.data).length
        simp [Json.psize, quoteChars]
      | arr xs =>
        cases xs with
        | nil => simp [Json.psize, JsonList.psize, Json.dump]
        | cons hd tl =>
          have h1 : Json.psize hd ≤ (Json.dump (ind + 2) hd).length := by
            apply ih1
            simp only [Json.psize, JsonList.psize] at hj
            have := psizeL_pos tl
            omega
          have h2 : JsonList.psize tl ≤
              (JsonList.dumpTail (ind + 2) tl).length + 1 := by
            apply ih2
            simp only [Json.psize, JsonList.psize] at hj
            have := psize_pos hd
            omega
          show Json.psize (.arr (.cons hd tl)) ≤
            ('[' :: (nlIndent (ind + 2) ++ Json.dump (ind + 2) hd ++
              JsonList.dumpTail (ind + 2) tl ++ nlIndent ind ++ [']'])).length
          simp only [Json.psize, JsonList.psize, List.length_cons,
            List.length_append, nlIndent, spaces, List.length_replicate,
            List.length_singleton]
          omega
      | obj m =>
        cases m with
        | nil => simp [Json.psize, JsonObj.psize, Json.dump]
        | cons k v tl =>
          have h1 : Json.psize v ≤ (Json.dump (ind + 2) v).length := by
            apply ih1
            simp only [Json.psize, JsonObj.psize] at hj
            have := psizeO_pos tl
            omega
          have h2 : JsonObj.psize tl ≤
              (JsonObj.dumpTail (ind + 2) tl).length + 1 := by
            apply ih3
            simp only [Json.psize, JsonObj.psize] at hj
            have := psize_pos v
            omega
          show Json.psize (.obj (.cons k v tl)) ≤
            ('\x7b' :: (nlIndent (ind + 2) ++ quoteChars k.data ++
              [':', ' '] ++ Json.dump (ind + 2) v ++
              JsonObj.dumpTail (ind + 2) tl ++ nlIndent ind ++
              ['\x7d'])).length
          simp only [Json.psize, JsonObj.psize, List.length_cons,
            List.length_append, nlIndent, spaces, List.length_replicate,
            List.length_singleton]
          omega
    · intro tl htl ind
      cases tl with
      | nil =>
        simp [JsonList.psize, JsonList.dumpTail]
      | cons hd tl2 =>
        have h1 : Json.psize hd ≤ (Json.dump ind hd).length := by
          apply ih1
          simp only [JsonList.psize] at htl
          have := psizeL_pos tl2
          omega
        have h2 : JsonList.psize tl2 ≤
            (JsonList.dumpTail ind tl2).length + 1 := by
          apply ih2
          simp only [JsonList.psize] at htl
          have := psize_pos hd
          omega
        show JsonList.psize (.cons hd tl2) ≤
          (',' :: (nlIndent ind ++ Json.dump ind hd ++
            JsonList.dumpTail ind tl2)).length + 1
        simp only [JsonList.psize, List.length_cons, List.length_append,
          nlIndent, spaces, List.length_replicate]
        omega
    · intro tl htl ind
      cases tl with
      | nil =>
        simp [JsonObj.psize, JsonObj.dumpTail]
      | cons k v tl2 =>
        have h1 : Json.psize v ≤ (Json.dump ind v).length := by
          apply ih1
          simp only [JsonObj.psize] at htl
          have := psizeO_pos tl2
          omega
        have h2 : JsonObj.psize tl2 ≤
            (JsonObj.dumpTail ind tl2).length + 1 := by
          apply ih3
          simp only [JsonObj.psize] at htl
          have := psize_pos v
          omega
        show JsonObj.psize (.cons k v tl2) ≤
          (',' :: (nlIndent ind ++ quoteChars k.data ++ [':', ' '] ++
            Json.dump ind v ++ JsonObj.dumpTail ind tl2)).length + 1
        simp only [JsonObj.psize, List.length_cons, List.length_append,
          nlIndent, spaces, List.length_replicate, List.length_singleton]
        omega

/-- json.loads inverts json.dump on every JSON value: the round-trip
law of the persistence layer. -/
theorem loads_dumps (j : Json) : loads (Json.dumps j) = some j := by
  have hlen : Json.psize j ≤ (Json.dump 0 j).length + 1 := by
    have := (dump_length_aux j.psize).1 j le_rfl 0
    omega
  have h := (dump_parse_aux (Json.psize j)).1 j le_rfl 0
    ((Json.dump 0 j).length + 1) [] hlen trivial
  rw [List.append_nil] at h
  show (match parseVal ((Json.dump 0 j).length + 1) (Json.dump 0 j) with
        | some (v, rest) => if skipWs rest = [] then some v else none
        | none => none) = some j
  rw [h]
  rfl

/-! ### Lemmas about the filename derivation and the file system -/

theorem removeHttp_clean (l : List Char)
    (h : ∀ c ∈ l, c.isAlphanum = true ∨ c = '_') : removeHttp l = l := by
  induction l with
  | nil => rfl
  | cons c rest ih =>
    have hrest : ∀ d ∈ rest, d.isAlphanum = true ∨ d = '_' :=
      fun d hd => h d (by simp [hd])
    rw [removeHttp.eq_def]
    split
    · rename_i x heq
      exact absurd heq (by simp)
    · rename_i x r2 heq
      have hcolon : (':' : Char) ∈ (c :: rest) := by
        rw [heq]
        simp
      rcases h ':' hcolon with h' | h'
      · exact absurd h' (by decide)
      · exact absurd h' (by decide)
    · rename_i x1 c2 r2 hne heq
      injection heq with h1 h2
      subst h1
      subst h2
      rw [ih hrest]

theorem removeHttps_clean (l : List Char)
    (h : ∀ c ∈ l, c.isAlphanum = true ∨ c = '_') : removeHttps l = l := by
  induction l with
  | nil => rfl
  | cons c rest ih =>
    have hrest : ∀ d ∈ rest, d.isAlphanum = true ∨ d = '_' :=
      fun d hd => h d (by simp [hd])
    rw [removeHttps.eq_def]
    split
    · rename_i x heq
      exact absurd heq (by simp)
    · rename_i x r2 heq
      have hcolon : (':' : Char) ∈ (c :: rest) := by
        rw [heq]
        simp
      rcases h ':' hcolon with h' | h'
      · exact absurd h' (by decide)
      · exact absurd h' (by decide)
    · rename_i x1 c2 r2 hne heq
      injection heq with h1 h2
      subst h1
      subst h2
      rw [ih hrest]

theorem map_underscore_id (l : List Char)
    (h : ∀ c ∈ l, c.isAlphanum = true ∨ c = '_') :
    l.map (fun c => if c.isAlphanum then c else '_') = l := by
  induction l with
  | nil => rfl
  | cons c rest ih =>
    have hrest : ∀ d ∈ rest, d.isAlphanum = true ∨ d = '_' :=
      fun d hd => h d (by simp [hd])
    simp only [List.map_cons, ih hrest]
    rcases h c (by simp) with hc | hc
    · rw [if_pos hc]
    · subst hc
      rw [if_neg (by decide)]

theorem sanitizeCore_clean (url : List Char) :
    ∀ c ∈ sanitizeCore url, c.isAlphanum = true ∨ c = '_' := by
  intro c hc
  unfold sanitizeCore at hc
  obtain ⟨d, hd, hmap⟩ := List.mem_map.mp (List.mem_of_mem_take hc)
  by_cases hda : d.isAlphanum = true
  · left
    rw [← hmap, if_pos hda]
    exact hda
  · right
    rw [← hmap, if_neg hda]

theorem sanitizeCore_length (url : List Char) :
    (sanitizeCore url).length ≤ 100 := by
  unfold sanitizeCore
  exact List.length_take_le 100 _

theorem sanitizeCore_idem (url : List Char) :
    sanitizeCore (sanitizeCore url) = sanitizeCore url := by
  have hclean := sanitizeCore_clean url
  show (((removeHttps (removeHttp (sanitizeCore url))).map
    (fun c => if c.isAlphanum then c else '_')).take 100) = sanitizeCore url
  rw [removeHttp_clean _ hclean, removeHttps_clean _ hclean,
    map_underscore_id _ hclean]
  exact List.take_of_length_le (sanitizeCore_length url)

theorem FS.ioFail_write (fs : FS) (p c : String) :
    (fs.write p c).ioFail = fs.ioFail := rfl

theorem FS.read_write (fs : FS) (p c : String) :
    (fs.write p c).read p = some c := by
  show ((((p, c) :: fs.files.filter (fun q => q.1 != p)).find?
    (fun q => q.1 == p)).map (fun q => q.2)) = some c
  rw [List.find?_cons_of_pos _ (by simp)]
  rfl

/-! ### Lemmas about the extractor -/

theorem init_driver_ok_shape (b : Backend) (s s1 : SessState)
    (h : init_driver b s = .ok s1) : s1 = { s with driver := some () } := by
  unfold init_driver at h
  split at h <;> split at h <;> simp_all

theorem init_driver_error_shape (b : Backend) (s : SessState) (e : String)
    (s1 : SessState) (h : init_driver b s = .error (e, s1)) : s1 = s := by
  unfold init_driver at h
  split at h <;> split at h <;> simp_all

theorem pySubscript_ok (j : Json) (k : String) (v : Json)
    (h : pySubscript j k = .ok v) :
    ∃ m, j = .obj m ∧ m.lookup k = some v := by
  cases j with
  | obj m =>
    refine ⟨m, rfl, ?_⟩
    simp only [pySubscript] at h
    cases hl : m.lookup k <;> rw [hl] at h
    · simp at h
    · simp only [] at h
      injection h with h1
      rw [h1]
  | null => simp [pySubscript] at h
  | bool b => simp [pySubscript] at h
  | num n => simp [pySubscript] at h
  | str s => simp [pySubscript] at h
  | arr xs => simp [pySubscript] at h

theorem hasKey_iff_lookup : ∀ (m : JsonObj) (k : String),
    m.hasKey k = true ↔ ∃ v, m.lookup k = some v
  | .nil, k => by simp [JsonObj.hasKey, JsonObj.lookup]
  | .cons k2 v2 tl, k => by
    by_cases hk : (k2 == k) = true
    · simp [JsonObj.hasKey, JsonObj.lookup, hk]
    · simp only [JsonObj.hasKey, JsonObj.lookup, hk, Bool.false_or,
        if_neg hk]
      exact hasKey_iff_lookup tl k


theorem validatePageProps_state (nd : Json) (s1 : SessState) :
    (∀ j s2, validatePageProps nd s1 = .ok (j, s2) → s2 = s1) ∧
    (∀ e s2, validatePageProps nd s1 = .error (e, s2) → s2 = s1) := by
  unfold validatePageProps
  constructor <;> intro a s2 h <;> (repeat' split at h) <;> simp_all

theorem validatePageProps_ok_path (nd : Json) (s1 : SessState) (j : Json)
    (s2 : SessState) (h : validatePageProps nd s1 = .ok (j, s2)) :
    hasPagePropsPath nd = true := by
  unfold validatePageProps at h
  cases h1 : pyContains nd ("props") <;> simp only [h1] at h
  case error => simp at h
  case ok b1 =>
    cases b1
    · simp at h
    · simp only [] at h
      cases h2 : pySubscript nd ("props") <;> simp only [h2] at h
      case error => simp at h
      case ok props =>
        cases h3 : pyContains props ("pageProps") <;> simp only [h3] at h
        case error => simp at h
        case ok b2 =>
          cases b2
          · simp at h
          · simp only [] at h
            cases h5 : pySubscript props ("pageProps") <;> simp only [h5] at h
            case error => simp at h
            case ok pp =>
              obtain ⟨m, rfl, hm⟩ := pySubscript_ok _ _ _ h2
              obtain ⟨m2, rfl, hm2⟩ := pySubscript_ok _ _ _ h5
              show (match JsonObj.lookup m ("props") with
                    | some (.obj m2) => m2.hasKey ("pageProps")
                    | _ => false) = true
              rw [hm]
              exact (hasKey_iff_lookup m2 ("pageProps")).mpr ⟨pp, hm2⟩

theorem extractTryBody_ok (ex : NextDataExtractor) (b : Backend) (url : String)
    (s : SessState) (j : Json) (s1 : SessState)
    (h : extractTryBody ex b url s = .ok (j, s1)) :
    init_driver b s = .ok { s with driver := some () } ∧
    s1 = { s with driver := some () } ∧
    b.readyStateComplete = true ∧ b.elementPresent = true ∧
    (scriptTextOf b == "" || pyStrip (scriptTextOf b).data == []) = false ∧
    ∃ nd, loads (scriptTextOf b) = some nd ∧
      validatePageProps nd s1 = .ok (j, s1) := by
  unfold extractTryBody at h
  cases hinit : init_driver b s <;> rw [hinit] at h
  case error es => simp at h
  case ok s2 =>
    have hs2 := init_driver_ok_shape b s s2 hinit
    subst hs2
    simp only [] at h
    cases hst : b.setTimeoutExn <;> simp only [hst] at h
    case some e => simp at h
    case none =>
    cases hnav1 : b.navigateExn ex.homepage_url <;> simp only [hnav1] at h
    case some e => simp at h
    case none =>
    cases hnav2 : b.navigateExn url <;> simp only [hnav2] at h
    case some e => simp at h
    case none =>
    cases hscroll : b.scrollExn <;> simp only [hscroll] at h
    case some e => simp at h
    case none =>
    cases hready : b.readyStateComplete <;> simp only [hready] at h
    case false => simp at h
    case true =>
    cases helem : b.elementPresent <;> simp only [helem] at h
    case false => simp at h
    case true =>
    cases hscr : (scriptTextOf b == "" || pyStrip (scriptTextOf b).data == []) <;>
      simp only [hscr] at h
    case true => simp at h
    case false =>
    cases hld : loads (scriptTextOf b) <;> simp only [hld] at h
    case none => simp at h
    case some nd =>
      have hstate := (validatePageProps_state nd _).1 j s1 h
      subst hstate
      exact ⟨rfl, rfl, rfl, rfl, rfl, nd, rfl, h⟩

theorem extractTryBody_error (ex : NextDataExtractor) (b : Backend)
    (url : String) (s : SessState) (e : String) (s1 : SessState)
    (h : extractTryBody ex b url s = .error (e, s1)) :
    ((∃ e2, init_driver b s = .error e2) ∧ s1 = s) ∨
    (init_driver b s = .ok { s with driver := some () } ∧
      s1 = { s with driver := some () }) := by
  unfold extractTryBody at h
  cases hinit : init_driver b s <;> rw [hinit] at h
  case error es =>
    obtain ⟨e0, s0⟩ := es
    have hs0 := init_driver_error_shape b s e0 s0 hinit
    subst hs0
    left
    simp only [] at h
    simp only [Except.error.injEq, Prod.mk.injEq] at h
    exact ⟨⟨_, rfl⟩, h.2.symm⟩
  case ok s2 =>
    have hs2 := init_driver_ok_shape b s s2 hinit
    subst hs2
    right
    refine ⟨rfl, ?_⟩
    simp only [] at h
    cases hst : b.setTimeoutExn <;> simp only [hst] at h
    case some e2 =>
      simp only [Except.error.injEq, Prod.mk.injEq] at h
      exact h.2.symm
    case none =>
    cases hnav1 : b.navigateExn ex.homepage_url <;> simp only [hnav1] at h
    case some e2 =>
      simp only [Except.error.injEq, Prod.mk.injEq] at h
      exact h.2.symm
    case none =>
    cases hnav2 : b.navigateExn url <;> simp only [hnav2] at h
    case some e2 =>
      simp only [Except.error.injEq, Prod.mk.injEq] at h
      exact h.2.symm
    case none =>
    cases hscroll : b.scrollExn <;> simp only [hscroll] at h
    case some e2 =>
      simp only [Except.error.injEq, Prod.mk.injEq] at h
      exact h.2.symm
    case none =>
    cases hready : b.readyStateComplete <;> simp only [hready] at h
    case false =>
      simp only [Except.error.injEq, Prod.mk.injEq] at h
      exact h.2.symm
    case true =>
    cases helem : b.elementPresent <;> simp only [helem] at h
    case false =>
      simp only [Except.error.injEq, Prod.mk.injEq] at h
      exact h.2.symm
    case true =>
    cases hscr : (scriptTextOf b == "" || pyStrip (scriptTextOf b).data == []) <;>
      simp only [hscr] at h
    case true =>
      simp only [Except.error.injEq, Prod.mk.injEq] at h
      exact h.2.symm
    case false =>
    cases hld : loads (scriptTextOf b) <;> simp only [hld] at h
    case none =>
      simp only [Except.error.injEq, Prod.mk.injEq] at h
      exact h.2.symm
    case some nd =>
      exact (validatePageProps_state nd _).2 e s1 h

/-! ### The claims -/

/-- C1 (code_bug evidence): a run whose extraction succeeds with a
truthy payload but whose persistence fails (save_data_to_json returns
None because disk I/O raises) still makes extract_and_save return
True, contradicting the claim — and the function's own docstring —
that True is returned only if both extraction and persistence
succeed. -/
theorem C1_save_failure_ignored :
    extract_and_save demoExtractor (okBackend goodTxt) failingFS
        ("http://site/page") freshSession =
      (true, { driver := none, quitCount := 1 }, failingFS) ∧
    (save_data_to_json failingFS (.obj (.cons ("a") (.num 1) .nil))
        ("http://site/page") ("data")).1 = none := by
  constructor
  · rfl
  · rfl

/-- C2: driver initialization attempts the platform's launch
strategies in an ordered fallback list where the first success wins,
and fails — with a driver-initialization error collecting the failure
reason of every attempted strategy — exactly when no supported
strategy succeeds. -/
theorem C2_init_driver_fallback (b : Backend) (s : SessState) :
    init_driver b s =
      (match firstSuccess (launchStrategies b) with
       | .ok _ => .ok { s with driver := some () }
       | .error es =>
         .error ("Failed to create Chrome WebDriver after multiple attempts:\n"
           ++ joinLines es, s)) ∧
    ((∃ s1, init_driver b s = .ok s1) ↔
      ∃ p ∈ launchStrategies b, ∃ u, p.2 = .ok u) := by
  by_cases hw : (b.system == "Windows") = true <;>
    cases hwl : b.windowsLaunch <;> cases hml : b.managerLaunch <;>
      simp [init_driver, launchStrategies, firstSuccess, joinLines, hw, hwl, hml]

/-- C2 witness: on a non-Windows backend whose manager launch
succeeds, initialization succeeds at once. -/
theorem C2_init_driver_fallback_witness :
    init_driver (okBackend goodTxt) freshSession =
      .ok { driver := some (), quitCount := 0 } := by
  rw [(C2_init_driver_fallback (okBackend goodTxt) freshSession).1]
  rfl

/-- C4: on every exit path of extract_page_props starting from a fresh
session the driver field ends cleared; quit() runs exactly once when a
session was opened and not at all when driver initialization failed;
and _close_driver is idempotent. -/
theorem C4_session_always_closed (ex : NextDataExtractor) (b : Backend)
    (url : String) :
    (extract_page_props ex b url freshSession).2.driver = none ∧
    ((∃ s1, init_driver b freshSession = .ok s1) →
      (extract_page_props ex b url freshSession).2.quitCount = 1) ∧
    ((∃ e, init_driver b freshSession = .error e) →
      (extract_page_props ex b url freshSession).2.quitCount = 0) ∧
    (∀ s : SessState, close_driver (close_driver s) = close_driver s) := by
  have key : ((extract_page_props ex b url freshSession).2 =
        { driver := none, quitCount := 1 } ∧
      init_driver b freshSession = .ok { driver := some (), quitCount := 0 }) ∨
      ((extract_page_props ex b url freshSession).2 = freshSession ∧
        ∃ e2, init_driver b freshSession = .error e2) := by
    cases htb : extractTryBody ex b url freshSession with
    | ok p =>
      obtain ⟨j, s1⟩ := p
      obtain ⟨hinit, hs1, _⟩ := extractTryBody_ok ex b url freshSession j s1 htb
      subst hs1
      left
      constructor
      · unfold extract_page_props
        rw [htb]
        rfl
      · exact hinit
    | error p =>
      obtain ⟨e, s1⟩ := p
      rcases extractTryBody_error ex b url freshSession e s1 htb with
        ⟨⟨e2, he2⟩, hs1⟩ | ⟨hinit, hs1⟩
      · subst hs1
        right
        refine ⟨?_, ⟨e2, he2⟩⟩
        unfold extract_page_props
        rw [htb]
        rfl
      · subst hs1
        left
        refine ⟨?_, hinit⟩
        unfold extract_page_props
        rw [htb]
        rfl
  rcases key with ⟨hres, hinit⟩ | ⟨hres, e2, hinit⟩
  · refine ⟨by rw [hres], fun _ => by rw [hres], ?_, ?_⟩
    · rintro ⟨e, he⟩
      rw [hinit] at he
      exact absurd he (by simp)
    · intro s
      cases s with
      | mk d q => cases d <;> rfl
  · refine ⟨by rw [hres]; rfl, ?_, fun _ => by rw [hres]; rfl, ?_⟩
    · rintro ⟨s1, hs1⟩
      rw [hinit] at hs1
      exact absurd hs1 (by simp)
    · intro s
      cases s with
      | mk d q => cases d <;> rfl

/-- C4 witness: with a fully working backend the opened session is
quit exactly once. -/
theorem C4_session_always_closed_witness :
    (extract_page_props demoExtractor (okBackend goodTxt) ("http://p")
      freshSession).2.quitCount = 1 :=
  (C4_session_always_closed demoExtractor (okBackend goodTxt)
    ("http://p")).2.1 ⟨{ driver := some (), quitCount := 0 }, rfl⟩

/-- C5: every extraction-stage failure — readyState timeout, element
not found, empty or whitespace-only payload, malformed JSON, or a
payload lacking the props.pageProps path — is absorbed at the
extraction boundary: extract_page_props returns None, and any raised
exception in the try-block ends as a (None, closed-session) result
rather than propagating. -/
theorem C5_failures_absorbed (ex : NextDataExtractor) (b : Backend)
    (url : String) (s : SessState) :
    (b.readyStateComplete = false → (extract_page_props ex b url s).1 = none) ∧
    (b.elementPresent = false → (extract_page_props ex b url s).1 = none) ∧
    (scriptTextOf b = "" ∨ pyStrip (scriptTextOf b).data = [] →
      (extract_page_props ex b url s).1 = none) ∧
    (loads (scriptTextOf b) = none → (extract_page_props ex b url s).1 = none) ∧
    (∀ nd, loads (scriptTextOf b) = some nd → hasPagePropsPath nd = false →
      (extract_page_props ex b url s).1 = none) ∧
    (∀ e s1, extractTryBody ex b url s = .error (e, s1) →
      extract_page_props ex b url s = (none, close_driver s1)) := by
  have hnone : (∀ j s1, extractTryBody ex b url s = .ok (j, s1) → False) →
      (extract_page_props ex b url s).1 = none := by
    intro hno
    unfold extract_page_props
    cases htb : extractTryBody ex b url s with
    | ok p =>
      obtain ⟨j, s1⟩ := p
      exact (hno j s1 htb).elim
    | error p =>
      obtain ⟨e, s1⟩ := p
      rfl
  refine ⟨?_, ?_, ?_, ?_, ?_, ?_⟩
  · intro hr
    apply hnone
    intro j s1 htb
    have hready := (extractTryBody_ok ex b url s j s1 htb).2.2.1
    rw [hr] at hready
    exact absurd hready (by simp)
  · intro he
    apply hnone
    intro j s1 htb
    have helem := (extractTryBody_ok ex b url s j s1 htb).2.2.2.1
    rw [he] at helem
    exact absurd helem (by simp)
  · intro hemp
    apply hnone
    intro j s1 htb
    have hscr := (extractTryBody_ok ex b url s j s1 htb).2.2.2.2.1
    rcases hemp with h1 | h1
    · simp [h1] at hscr
    · simp [h1] at hscr
  · intro hld
    apply hnone
    intro j s1 htb
    obtain ⟨nd, hnd, _⟩ := (extractTryBody_ok ex b url s j s1 htb).2.2.2.2.2
    rw [hld] at hnd
    exact absurd hnd (by simp)
  · intro nd hnd hpath
    apply hnone
    intro j s1 htb
    obtain ⟨nd2, hnd2, hval⟩ := (extractTryBody_ok ex b url s j s1 htb).2.2.2.2.2
    rw [hnd] at hnd2
    injection hnd2 with hnd3
    subst hnd3
    have := validatePageProps_ok_path nd s1 j s1 hval
    rw [hpath] at this
    exact absurd this (by simp)
  · intro e s1 htb
    unfold extract_page_props
    rw [htb]

/-- C5 witness: a backend that never reaches readyState complete
yields None, and a backend answering valid JSON without the
props.pageProps path yields None. -/
theorem C5_failures_absorbed_witness :
    (extract_page_props demoExtractor
      { okBackend goodTxt with readyStateComplete := false } ("http://p")
      freshSession).1 = none ∧
    (extract_page_props demoExtractor (okBackend schemaMismatchTxt)
      ("http://p") freshSession).1 = none :=
  ⟨(C5_failures_absorbed demoExtractor
      { okBackend goodTxt with readyStateComplete := false } ("http://p")
      freshSession).1 rfl,
   (C5_failures_absorbed demoExtractor (okBackend schemaMismatchTxt)
      ("http://p") freshSession).2.2.2.2.1
      (.obj (.cons ("other") (.num 1) .nil)) rfl rfl⟩

/-- C7: with a backend reporting readyState complete and an element
whose text is the props.pageProps payload for the object with a = 1,
extract_page_props returns that nested object (closing the session);
with element text that is valid JSON lacking the props.pageProps path,
it returns None. -/
theorem C7_mock_extraction :
    extract_page_props demoExtractor (okBackend goodTxt) ("http://site/page")
        freshSession =
      (some (.obj (.cons ("a") (.num 1) .nil)),
        { driver := none, quitCount := 1 }) ∧
    (extract_page_props demoExtractor (okBackend schemaMismatchTxt)
        ("http://site/page") freshSession).1 = none := by
  constructor
  · rfl
  · rfl

/-- C8: the free function extract_next_data is definitionally the thin
adapter that builds a NextDataExtractor from the same arguments and
calls its extract_and_save on the page URL. -/
theorem C8_free_function_is_adapter (homepage_url page_url : String)
    (headless : Bool) (blocked_domains : Option (List String)) (b : Backend)
    (fs : FS) (s : SessState) :
    extract_next_data homepage_url page_url headless blocked_domains b fs s =
      extract_and_save (NextDataExtractor.init homepage_url headless
        blocked_domains) b fs page_url s := rfl

/-- C8 witness at concrete arguments. -/
theorem C8_free_function_is_adapter_witness :
    extract_next_data ("http://h") ("http://p") true none (okBackend goodTxt)
        emptyFS freshSession =
      extract_and_save (NextDataExtractor.init ("http://h") true none)
        (okBackend goodTxt) emptyFS ("http://p") freshSession :=
  C8_free_function_is_adapter ("http://h") ("http://p") true none
    (okBackend goodTxt) emptyFS freshSession

/-- C9: when extraction succeeds but the extracted pageProps value is
falsy, extract_page_props returns that value, yet extract_and_save
treats the run as a failure: it returns False and leaves the file
system untouched. -/
theorem C9_falsy_payload_fails (ex : NextDataExtractor) (b : Backend)
    (fs : FS) (url : String) (s : SessState) (pp : Json)
    (h : (extract_page_props ex b url s).1 = some pp)
    (ht : pp.truthy = false) :
    extract_and_save ex b fs url s =
      (false, (extract_page_props ex b url s).2, fs) := by
  simp [extract_and_save, h, ht]

/-- C9 witness: an empty pageProps object is extracted as a value but
extract_and_save returns False and writes nothing. -/
theorem C9_falsy_payload_fails_witness :
    extract_and_save demoExtractor (okBackend emptyPropsTxt) emptyFS
        ("http://p") freshSession =
      (false, (extract_page_props demoExtractor (okBackend emptyPropsTxt)
        ("http://p") freshSession).2, emptyFS) :=
  C9_falsy_payload_fails demoExtractor (okBackend emptyPropsTxt) emptyFS
    ("http://p") freshSession (.obj .nil) rfl rfl

/-- C3 counterexample: the filename derivation applied twice differs
from applying it once — the dot of the appended .json extension is
itself replaced by an underscore on the second pass — so the full
sanitize function is not idempotent as claimed. -/
theorem C3_sanitize_not_idempotent :
    derive_filename (derive_filename ("a")) ≠ derive_filename ("a") := by
  decide

/-- C3 amended: the sanitization core (protocol stripping, underscore
replacement, truncation to 100 characters) is deterministic and
idempotent; the full output is that core — all of whose characters are
alphanumeric or underscores — followed by the .json suffix; and its
length is at most 105 regardless of the URL length.  Idempotence holds
for the core, not for the full derivation with the suffix. -/
theorem C3_sanitize_properties (url : String) :
    sanitizeCore (sanitizeCore url.data) = sanitizeCore url.data ∧
    (∀ c ∈ sanitizeCore url.data, c.isAlphanum = true ∨ c = '_') ∧
    derive_filename url =
      String.mk (sanitizeCore url.data ++ ['.', 'j', 's', 'o', 'n']) ∧
    (derive_filename url).length ≤ 105 := by
  refine ⟨sanitizeCore_idem _, sanitizeCore_clean _, rfl, ?_⟩
  show (deriveFilenameChars url.data).length ≤ 105
  unfold deriveFilenameChars
  have h := sanitizeCore_length url.data
  rw [List.length_append]
  have h5 : (['.', 'j', 's', 'o', 'n'] : List Char).length = 5 := rfl
  omega

/-- C3 witness: the core is idempotent at a concrete URL. -/
theorem C3_sanitize_properties_witness :
    sanitizeCore (sanitizeCore ("http://x?a=1").data) =
      sanitizeCore ("http://x?a=1").data :=
  (C3_sanitize_properties ("http://x?a=1")).1

/-- C6: persisting any JSON payload with save_data_to_json and then
re-reading the produced file with read_saved_data yields a value equal
to the original payload (round-trip law). -/
theorem C6_round_trip (j : Json) (url folder : String) (fs : FS)
    (path : String) (fs2 : FS)
    (h : save_data_to_json fs j url folder = (some path, fs2)) :
    read_saved_data fs2 path = some j := by
  by_cases hio : fs.ioFail = true
  · rw [save_data_to_json, if_pos hio] at h
    simp at h
  · rw [save_data_to_json, if_neg hio] at h
    simp only [Prod.mk.injEq, Option.some.injEq] at h
    obtain ⟨h1, h2⟩ := h
    subst h1
    subst h2
    unfold read_saved_data
    rw [FS.ioFail_write, if_neg hio, FS.read_write]
    show loads (Json.dumps j) = some j
    exact loads_dumps j

/-- C6 witness: a concrete payload survives the save-then-read round
trip. -/
theorem C6_round_trip_witness :
    read_saved_data (FS.write emptyFS ("data/u.json")
      (Json.dumps (.obj (.cons ("a") (.num 1) .nil)))) ("data/u.json") =
      some (.obj (.cons ("a") (.num 1) .nil)) :=
  C6_round_trip (.obj (.cons ("a") (.num 1) .nil)) ("http://u") ("data")
    emptyFS ("data/u.json")
    (FS.write emptyFS ("data/u.json")
      (Json.dumps (.obj (.cons ("a") (.num 1) .nil)))) rfl

/-- C10: the filename derivation is not injective — these two distinct
URLs differ only in a non-alphanumeric character and map to the same
file path — and saving a second payload under the colliding URL
silently overwrites the first artifact: afterwards the disk holds a
single file whose contents read back as the second payload. -/
theorem C10_filename_collision :
    ("http://a/b" : String) ≠ ("http://a.b" : String) ∧
    derive_filename ("http://a/b") = derive_filename ("http://a.b") ∧
    (save_data_to_json emptyFS (.num 1) ("http://a/b") ("data")).1 =
      some ("data/a_b.json") ∧
    (save_data_to_json
        (save_data_to_json emptyFS (.num 1) ("http://a/b") ("data")).2
        (.num 2) ("http://a.b") ("data")).1 = some ("data/a_b.json") ∧
    read_saved_data
      (save_data_to_json
        (save_data_to_json emptyFS (.num 1) ("http://a/b") ("data")).2
        (.num 2) ("http://a.b") ("data")).2 ("data/a_b.json") =
      some (.num 2) ∧
    ((save_data_to_json
        (save_data_to_json emptyFS (.num 1) ("http://a/b") ("data")).2
        (.num 2) ("http://a.b") ("data")).2.files.map
      (fun p => p.1)) = [("data/a_b.json")] := by
  refine ⟨by decide, by decide, rfl, rfl, ?_, ?_⟩
  · rfl
  · rfl

end NextData
